import Mathlib

/-!
# Verification of the gofermart order-accrual pipeline and wallet ledger

A shallow embedding of the core of `ujwegh/gofermart`: the order intake,
the order processor (oracle polling, retry buffer, order/wallet commit),
the wallet ledger with its PostgreSQL check constraints, the withdrawal
flow, the accrual client's rate-limiter construction, and the
authentication middleware's header parsing.

Monetary amounts (Go `float64` values backed by NUMERIC columns) are
modelled as integers: every operation the core performs on them is an
addition or a sign comparison, under which the exact NUMERIC arithmetic
and the integral amounts of every concrete scenario coincide with ℤ.
UUIDs and order identifiers are strings.  Each Go function that opens a database
transaction is modelled as a pure function from a database state to a
database state paired with its outcome; a failing SQL statement makes
the whole transaction roll back, returning the original state.

SQL check constraints from `migrations/001_init_db.sql`:
  orders:      CHECK (accrual > 0)      (NULL passes)
  wallets:     CHECK (credits >= 0), CHECK (debits >= 0)
  withdrawals: CHECK (amount > 0)
-/

namespace Gofermart

/-- `models.Status`: internal order status enum. -/
inductive Status where
  | NEW
  | PROCESSING
  | INVALID
  | PROCESSED
deriving DecidableEq, Repr

/-- `models.Order` / the `orders` table row (timestamps omitted: no claim
depends on them). `accrual` is the nullable NUMERIC column. -/
structure Order where
  id : String
  userUUID : String
  status : Status
  accrual : Option ℤ
deriving DecidableEq, Repr

/-- `models.Wallet` / the `wallets` table row. -/
structure Wallet where
  userUUID : String
  credits : ℤ
  debits : ℤ
deriving DecidableEq, Repr

/-- `models.Withdrawal` / the `withdrawals` table row. -/
structure Withdrawal where
  userUUID : String
  orderID : String
  amount : ℤ
deriving DecidableEq, Repr

/-- The committed database state: the three tables the core touches. -/
structure DBState where
  orders : List Order
  wallets : List Wallet
  withdrawals : List Withdrawal
deriving DecidableEq, Repr

/-- `clients.AccrualResponseDto`: the decoded oracle response.  The
external status is a plain string in Go (`AccrualStatus string`). -/
structure AccrualResponseDto where
  orderID : String
  accrualStatus : String
  accrual : ℤ
deriving DecidableEq, Repr

/-- `service.mapAccrualResponseStatus`: the Go `switch` on the response's
status string; falling through every `case` returns `models.INVALID`. -/
def mapAccrualResponseStatus (accrualResponse : AccrualResponseDto) : Status :=
  if accrualResponse.accrualStatus = "PROCESSING" then Status.PROCESSING
  else if accrualResponse.accrualStatus = "REGISTERED" then Status.NEW
  else if accrualResponse.accrualStatus = "INVALID" then Status.INVALID
  else if accrualResponse.accrualStatus = "PROCESSED" then Status.PROCESSED
  else Status.INVALID

/-- The status mapping as the specification states it, written from the
spec's words: `REGISTERED → NEW`, `PROCESSING → PROCESSING`,
`INVALID → INVALID`, `PROCESSED → PROCESSED`, anything else → `INVALID`. -/
def specStatusMap (s : String) : Status :=
  if s = "REGISTERED" then Status.NEW
  else if s = "PROCESSING" then Status.PROCESSING
  else if s = "INVALID" then Status.INVALID
  else if s = "PROCESSED" then Status.PROCESSED
  else Status.INVALID

/-! ## SQL statement semantics

Each statement either fails (`none`, which rolls the enclosing
transaction back) or returns the updated rows. -/

/-- The `orders` check constraint `accrual_positive CHECK (accrual > 0)`:
a NULL accrual passes, a non-NULL accrual must be strictly positive. -/
def accrualCheckOk : Option ℤ → Bool
  | none => true
  | some a => decide (0 < a)

/-- `OrderRepositoryImpl.UpdateOrder`:
`UPDATE orders SET status = $1, accrual = $2, updated_at = $3 WHERE id = $4`.
The statement errors exactly when a matched row's new value violates the
`accrual > 0` check; matching no row is a successful no-op. -/
def updateOrderRows (rows : List Order) (o : Order) : Option (List Order) :=
  if rows.any (fun r => decide (r.id = o.id)) && !accrualCheckOk o.accrual then
    none
  else
    some (rows.map fun r =>
      if r.id = o.id then { r with status := o.status, accrual := o.accrual } else r)

/-- `WalletRepositoryImpl.Credit`:
`UPDATE wallets SET credits = credits + $1 WHERE user_uuid = $2 returning *`
read through `tx.GetContext`.  Zero matched rows surfaces `sql.ErrNoRows`;
a matched row must keep `credits >= 0` (check constraint).  Returns the
updated row and the updated table. -/
def creditRows (rows : List Wallet) (userUUID : String) (amount : ℤ) :
    Option (Wallet × List Wallet) :=
  match rows.find? (fun w => decide (w.userUUID = userUUID)) with
  | none => none
  | some w =>
    if 0 ≤ w.credits + amount then
      some ({ w with credits := w.credits + amount },
        rows.map fun r =>
          if r.userUUID = userUUID then { w with credits := w.credits + amount } else r)
    else none

/-- `WalletRepositoryImpl.Debit`:
`UPDATE wallets SET debits = debits + $1 WHERE user_uuid = $2 returning *`,
with the `debits >= 0` check constraint. -/
def debitRows (rows : List Wallet) (userUUID : String) (amount : ℤ) :
    Option (Wallet × List Wallet) :=
  match rows.find? (fun w => decide (w.userUUID = userUUID)) with
  | none => none
  | some w =>
    if 0 ≤ w.debits + amount then
      some ({ w with debits := w.debits + amount },
        rows.map fun r =>
          if r.userUUID = userUUID then { w with debits := w.debits + amount } else r)
    else none

/-- `WithdrawalsRepositoryImpl.CreateWithdrawal`:
`INSERT INTO withdrawals (user_uuid, order_id, amount, created_at)` with
the `amount > 0` check constraint. -/
def insertWithdrawalRow (rows : List Withdrawal) (wd : Withdrawal) :
    Option (List Withdrawal) :=
  if 0 < wd.amount then some (rows ++ [wd]) else none

/-! ## Order Retry Buffer (`service.OrderCacheImpl` over `go-cache`) -/

/-- `OrderCacheImpl.AddOrder`: `cache.Add` keyed on `order.ID` errors when
the key is already present, which `AddOrder` swallows — so adding is a
no-op when an entry with the same identifier is buffered. -/
def addOrder (buf : List Order) (o : Order) : List Order :=
  if buf.any (fun b => decide (b.id = o.id)) then buf else buf ++ [o]

/-! ## Order Processor (`service.OrderProcessorImpl`) -/

/-- Result of `OrderProcessorImpl.updateOrder`: the database state after
the transaction (unchanged when it rolled back), the retry buffer, and
whether the transaction committed. -/
structure UpdateResult where
  state : DBState
  buffer : List Order
  committed : Bool
deriving DecidableEq, Repr

/-- `OrderProcessorImpl.updateOrder`: begin a transaction, run
`orderRepo.UpdateOrder`, then `walletService.Credit(userUUID, *order.Accrual)`
— unconditionally, whatever the order's status — and commit.  On a failed
statement the transaction rolls back and the order goes to the retry
buffer.  The Go code dereferences `*order.Accrual`; its only caller sets
the pointer first, which `Option.getD 0` mirrors for a never-nil value. -/
def OrderProcessorImpl.updateOrder (s : DBState) (buf : List Order) (order : Order) :
    UpdateResult :=
  match updateOrderRows s.orders order with
  | none => ⟨s, addOrder buf order, false⟩
  | some orders' =>
    match creditRows s.wallets order.userUUID (order.accrual.getD 0) with
    | none => ⟨s, addOrder buf order, false⟩
    | some (_, wallets') => ⟨{ s with orders := orders', wallets := wallets' }, buf, true⟩

/-- Outcome of `accrualClient.GetOrderInfo` as the processor's loop sees
it: any failure (transport, 204 not-registered, non-2xx, decode) versus a
decoded response. -/
inductive OracleResult where
  | failure
  | success (resp : AccrualResponseDto)
deriving DecidableEq, Repr

/-- One iteration of `OrderProcessorImpl.ProcessOrders` on a dequeued
order: on an oracle error, buffer the order and leave the database alone;
on success, set `order.Accrual` to the response's accrual, map the status
with `mapAccrualResponseStatus`, and run `updateOrder`. -/
def processOrdersStep (s : DBState) (buf : List Order) (order : Order)
    (res : OracleResult) : DBState × List Order :=
  match res with
  | OracleResult.failure => (s, addOrder buf order)
  | OracleResult.success resp =>
    let updated : Order :=
      { order with accrual := some resp.accrual, status := mapAccrualResponseStatus resp }
    let r := OrderProcessorImpl.updateOrder s buf updated
    (r.state, r.buffer)

/-! ## Withdrawal flow (`service.WithdrawalServiceImpl`) -/

/-- Outcome of `CreateWithdrawal` as the HTTP boundary sees it:
success, `insufficient funds` (402), or a database error surfaced as a
generic failure. -/
inductive WithdrawalOutcome where
  | ok
  | insufficientFunds
  | dbError
deriving DecidableEq, Repr

/-- `WithdrawalServiceImpl.CreateWithdrawal`: begin a transaction with a
deferred rollback, `walletService.Debit`, then the application-level
balance guard `wallet.Credits - wallet.Debits < 0` (402), then the
withdrawal insert, then commit.  Every non-commit exit leaves the
deferred rollback to undo the debit. -/
def WithdrawalServiceImpl.CreateWithdrawal (s : DBState) (userUID : String)
    (orderID : String) (amount : ℤ) : DBState × WithdrawalOutcome :=
  match debitRows s.wallets userUID amount with
  | none => (s, WithdrawalOutcome.dbError)
  | some (wallet, wallets') =>
    if wallet.credits - wallet.debits < 0 then
      (s, WithdrawalOutcome.insufficientFunds)
    else
      match insertWithdrawalRow s.withdrawals ⟨userUID, orderID, amount⟩ with
      | none => (s, WithdrawalOutcome.dbError)
      | some withdrawals' =>
        ({ s with wallets := wallets', withdrawals := withdrawals' }, WithdrawalOutcome.ok)

/-! ## Luhn validation (`goluhn.Validate`) -/

/-- Digit value of one character, as `strconv.Atoi` on a single rune:
`none` on a non-digit. -/
def digitVal? (c : Char) : Option Nat :=
  if c.isDigit then some (c.toNat - Char.toNat (Char.ofNat 48)) else none

/-- One digit's contribution in `goluhn.calculateLuhnSum`: digits whose
index has the given parity are doubled, subtracting 9 above 9. -/
def luhnDigit (parity i d : Nat) : Nat :=
  if i % 2 = parity then (if d * 2 > 9 then d * 2 - 9 else d * 2) else d

/-- `goluhn.calculateLuhnSum`: left-to-right indexed digit sum; any
non-digit character fails. -/
def luhnSumAux (parity : Nat) : Nat → List Char → Option Nat
  | _, [] => some 0
  | i, c :: rest =>
    match digitVal? c, luhnSumAux parity (i + 1) rest with
    | some d, some sum => some (luhnDigit parity i d + sum)
    | _, _ => none

/-- `goluhn.Validate`: parity is `len(number) % 2`; the checksum must be
divisible by 10. -/
def luhnValid (number : String) : Bool :=
  match luhnSumAux (number.length % 2) 0 number.toList with
  | none => false
  | some sum => decide (sum % 10 = 0)

/-! ## Go string helpers (`strings.Contains` / `strings.Split`) -/

/-- Go `strings.Contains(s, substr)`: some suffix of `s` starts with
`substr`. -/
def containsSub (sub : List Char) : List Char → Bool
  | [] => sub.isEmpty
  | c :: rest => sub.isPrefixOf (c :: rest) || containsSub sub rest

/-- Worker for Go `strings.Split` with a non-empty separator: scan left
to right, cutting at each non-overlapping separator occurrence; `acc`
holds the current piece reversed. -/
def goSplitAux (sep : List Char) : List Char → List Char → List (List Char)
  | [], acc => [acc.reverse]
  | c :: rest, acc =>
    if sep.isPrefixOf (c :: rest) then
      acc.reverse :: goSplitAux sep (List.drop (sep.length - 1) rest) []
    else
      goSplitAux sep rest (c :: acc)
termination_by s _ => s.length
decreasing_by
  · simp only [List.length_cons, List.length_drop]
    omega
  · simp only [List.length_cons]
    omega

/-- Go `strings.Split(s, sep)` for a non-empty separator (the middleware
only ever splits on `"Bearer "`). -/
def goSplit (s sep : List Char) : List (List Char) :=
  goSplitAux sep s []

/-! ## Authentication middleware (`middlware.AuthMiddleware`) -/

/-- The separator the middleware splits the Authorization header on. -/
def bearerSep : List Char := "Bearer ".toList

/-- What `AuthMiddleware.Authenticate` does to one request before
delegating to the wrapped handler. -/
inductive AuthOutcome where
  | panic
  | unauthorizedInvalidToken
  | unauthorizedUserNotFound
  | ok (userUUID : String)
deriving DecidableEq, Repr

/-- `AuthMiddleware.Authenticate`:
`token := strings.Split(authHeader, "Bearer ")[1]` indexes the split
result unconditionally — when the slice has fewer than two elements the
Go runtime panics before any response is written (`panic`).  The token
and user services are abstracted as lookup functions; their failures are
the two 401 branches. -/
def AuthMiddleware.Authenticate (getUserEmail : List Char → Option String)
    (getByUserEmail : String → Option String) (authHeader : List Char) : AuthOutcome :=
  match (goSplit authHeader bearerSep).get? 1 with
  | none => AuthOutcome.panic
  | some token =>
    match getUserEmail token with
    | none => AuthOutcome.unauthorizedInvalidToken
    | some email =>
      match getByUserEmail email with
      | none => AuthOutcome.unauthorizedUserNotFound
      | some userUUID => AuthOutcome.ok userUUID

/-! ## Order intake (`service.OrderServiceImpl` and `handlers.OrdersHandler`) -/

/-- `appErrors.ResponseCodeError`: a message and a suggested HTTP code. -/
structure ResponseCodeError where
  msg : String
  code : Nat
deriving DecidableEq, Repr

/-- `OrderServiceImpl.CreateOrder`: look the identifier up; owned by
another user → 409 conflict; owned by the caller → the `repeated order`
error (`appErrors.New` carries code 500; the handler special-cases its
message); otherwise insert a `NEW` order and send it to the work
queue. -/
def OrderServiceImpl.CreateOrder (s : DBState) (queue : List Order)
    (orderID : String) (userUID : String) :
    DBState × List Order × Except ResponseCodeError Order :=
  match s.orders.find? (fun o => decide (o.id = orderID)) with
  | some order =>
    if order.userUUID ≠ userUID then
      (s, queue, Except.error ⟨"order already created by another user", 409⟩)
    else
      (s, queue, Except.error ⟨"repeated order", 500⟩)
  | none =>
    let newOrder : Order :=
      { id := orderID, userUUID := userUID, status := Status.NEW, accrual := none }
    ({ s with orders := s.orders ++ [newOrder] }, queue ++ [newOrder], Except.ok newOrder)

/-- `OrdersHandler.CreateOrder`: Luhn-validate the body (422 on failure),
call the service, answer 200 when the error message contains
`repeated order`, otherwise the error's code, and 202 on success.
Returns the database state, the work queue and the HTTP status. -/
def OrdersHandler.CreateOrder (s : DBState) (queue : List Order)
    (body : String) (userUID : String) : DBState × List Order × Nat :=
  if luhnValid body = false then (s, queue, 422)
  else
    match OrderServiceImpl.CreateOrder s queue body userUID with
    | (s', q', Except.error e) =>
      if containsSub "repeated order".toList e.msg.toList then (s', q', 200)
      else (s', q', e.code)
    | (s', q', Except.ok _) => (s', q', 202)

/-! ## Startup recovery (`OrderProcessorImpl.ProcessUnfinishedOrders`) -/

/-- The SQL filter `status = 'NEW' or status = 'PROCESSING'`. -/
def isUnprocessed (o : Order) : Bool :=
  decide (o.status = Status.NEW) || decide (o.status = Status.PROCESSING)

/-- `OrderRepositoryImpl.CountUnprocessedOrders`. -/
def CountUnprocessedOrders (rows : List Order) : Nat :=
  (rows.filter isUnprocessed).length

/-- `OrderRepositoryImpl.GetUnprocessedOrders` with `limit $1 offset $2`. -/
def GetUnprocessedOrders (rows : List Order) (limit offset : Nat) : List Order :=
  ((rows.filter isUnprocessed).drop offset).take limit

/-- The paging loop of `ProcessUnfinishedOrders`:
`for cnt < totalOrders { page := GetUnprocessedOrders(20, cnt); for each order: send; cnt += 20 }`.
Returns the sequence of orders the loop attempts to send, in order; the
fetches are pure reads, so which sends actually happen is decided by the
channel semantics applied to this sequence. -/
def publishUnfinishedLoop (rows : List Order) (totalOrders cnt : Nat) : List Order :=
  if cnt < totalOrders then
    GetUnprocessedOrders rows 20 cnt ++ publishUnfinishedLoop rows totalOrders (cnt + 20)
  else []
termination_by totalOrders - cnt
decreasing_by omega

/-- The work queue's capacity: `make(chan models.Order, 100)` in `main`. -/
def processOrderChanCapacity : Nat := 100

/-- Outcome of startup recovery's sends against the buffered channel:
either every attempted send was accepted (`completed`, with the final
channel contents), or a send found the buffer full and blocked forever
(`blocked`, with the channel stuck at capacity and that order and every
later one never submitted). -/
inductive RecoveryResult where
  | completed (queue : List Order)
  | blocked (queue : List Order)
deriving DecidableEq, Repr

/-- Sequential sends on `processOrderChan` during construction.
`NewOrderProcessor` runs `ProcessUnfinishedOrders` before it returns,
and `main` starts the consumer (`go op.ProcessOrders`) only afterwards,
so nothing drains the channel while recovery runs: a send to a full
buffer blocks forever and none of the remaining sends happen. -/
def chanSendAll : List Order → List Order → RecoveryResult
  | queue, [] => RecoveryResult.completed queue
  | queue, o :: rest =>
    if queue.length < processOrderChanCapacity then chanSendAll (queue ++ [o]) rest
    else RecoveryResult.blocked queue

/-- `OrderProcessorImpl.ProcessUnfinishedOrders`: run at construction on
the freshly made (empty) channel; counts the unprocessed orders and, when
the count is non-zero, pages through them 20 at a time sending each onto
the work queue, each send subject to the channel semantics above. -/
def ProcessUnfinishedOrders (rows : List Order) : RecoveryResult :=
  if CountUnprocessedOrders rows ≠ 0 then
    chanSendAll [] (publishUnfinishedLoop rows (CountUnprocessedOrders rows) 0)
  else RecoveryResult.completed []

/-- A database state with 101 NEW orders (distinct identifiers
`"0"`..`"100"`): one more unprocessed order than the work queue's
capacity. -/
def manyUnprocessedRows : List Order :=
  (List.range 101).map fun i => ⟨toString i, "u1", Status.NEW, none⟩

/-! ## Accrual client construction (`clients.NewAccrualClient`) -/

/-- The fields of `config.AppConfig` the accrual client reads, with the
defaults of `config.ParseFlags`. -/
structure AppConfig where
  accrualSystemAddress : String
  accrualSystemRequestTimeoutSec : Nat
  accrualMaxRequestsPerMinute : Nat
deriving DecidableEq, Repr

/-- The defaults set in `config.ParseFlags`. -/
def defaultAppConfig : AppConfig :=
  { accrualSystemAddress := "http://127.0.0.1:8081"
    accrualSystemRequestTimeoutSec := 30
    accrualMaxRequestsPerMinute := 60 }

/-- `NewAccrualClient`: `ratePerSecond := c.AccrualMaxRequestsPerMinute / 1`,
the argument handed to `go.uber.org/ratelimit.New`.  That library's
`New(n)` builds a leaky-bucket limiter admitting `n` requests **per
second** (admissions evenly spaced `1/n` seconds apart), per its
documented contract. -/
def NewAccrualClient.ratePerSecond (c : AppConfig) : Nat :=
  c.accrualMaxRequestsPerMinute / 1

/-- Number of `rateLimiter.Take()` admissions a steady `ratelimit.New(n)`
limiter grants within the first minute under continuous demand: one every
`1/n` second, so the admissions with `i/n < 60` are exactly `60 * n`. -/
def admissionsInFirstMinute (n : Nat) : Nat := 60 * n

/-! ## Whole-system reachability

The committed states the core can reach, for the balance invariant: one
step per externally triggered operation, with the work queue and the
retry buffer tracked so that processor steps consume exactly the orders
the system actually enqueued. -/

/-- The full system state: committed database, work-queue contents
(FIFO), retry-buffer contents. -/
structure SysState where
  db : DBState
  queue : List Order
  buffer : List Order
deriving DecidableEq, Repr

/-- `WalletServiceImpl.CreateWallet` via `WalletRepositoryImpl.CreateWallet`:
insert one row with zeros; the `user_uuid` unique constraint makes a
second insert fail and roll the registration transaction back. -/
def createWalletOp (s : DBState) (userUID : String) : DBState :=
  if s.wallets.any (fun w => decide (w.userUUID = userUID)) then s
  else { s with wallets := s.wallets ++ [⟨userUID, 0, 0⟩] }

/-- One externally triggered operation of the core. `expire i` is the
retry buffer's TTL eviction of its `i`-th entry, which the eviction
callback re-emits onto the work queue. -/
inductive SysOp where
  | register (userUID : String)
  | intake (orderID userUID : String)
  | processHead (res : OracleResult)
  | expire (i : Nat)
  | withdraw (userUID orderID : String) (amount : ℤ)

/-- The transition function: how each operation transforms the committed
state, the work queue and the retry buffer. -/
def sysStep (s : SysState) : SysOp → SysState
  | SysOp.register userUID => { s with db := createWalletOp s.db userUID }
  | SysOp.intake orderID userUID =>
    match OrderServiceImpl.CreateOrder s.db s.queue orderID userUID with
    | (db', q', _) => { s with db := db', queue := q' }
  | SysOp.processHead res =>
    match s.queue with
    | [] => s
    | order :: rest =>
      let r := processOrdersStep s.db s.buffer order res
      { db := r.1, queue := rest, buffer := r.2 }
  | SysOp.expire i =>
    match s.buffer.get? i with
    | none => s
    | some o => { s with buffer := s.buffer.eraseIdx i, queue := s.queue ++ [o] }
  | SysOp.withdraw userUID orderID amount =>
    { s with db := (WithdrawalServiceImpl.CreateWithdrawal s.db userUID orderID amount).1 }

/-- The empty initial state. -/
def initSysState : SysState := ⟨⟨[], [], []⟩, [], []⟩

/-- Run a sequence of operations from the initial state. -/
def runSys (ops : List SysOp) : SysState := ops.foldl sysStep initSysState

/-- Every committed wallet row has a non-negative balance. -/
def BalancesNonneg (db : DBState) : Prop :=
  ∀ w ∈ db.wallets, 0 ≤ w.credits - w.debits

/-- Every order in the work queue or the retry buffer has a persisted
order row with its identifier (orders are enqueued only after their
insert commits, and rows are never deleted). -/
def QueuedKnown (s : SysState) : Prop :=
  ∀ o ∈ s.queue ++ s.buffer, ∃ r ∈ s.db.orders, r.id = o.id

/-- The inductive system invariant. -/
def SysInv (s : SysState) : Prop := BalancesNonneg s.db ∧ QueuedKnown s

end Gofermart

namespace Gofermart

/-- C9: The mapping from external accrual status to internal order status
is total and satisfies: REGISTERED ↦ NEW, PROCESSING ↦ PROCESSING,
INVALID ↦ INVALID, PROCESSED ↦ PROCESSED, and every other input value
maps to INVALID — i.e. the code's mapping agrees with the spec's mapping
on every response. -/
theorem mapAccrualResponseStatus_eq_spec (resp : AccrualResponseDto) :
    mapAccrualResponseStatus resp = specStatusMap resp.accrualStatus := by
  unfold mapAccrualResponseStatus specStatusMap
  by_cases h1 : resp.accrualStatus = "PROCESSING" <;>
    by_cases h2 : resp.accrualStatus = "REGISTERED" <;>
      simp_all

/-- Helper: after `addOrder buf o`, some buffered entry carries `o`'s
identifier (either a previously buffered entry with the same key, or `o`
itself freshly appended). -/
theorem addOrder_mem_id (buf : List Order) (o : Order) :
    ∃ b ∈ addOrder buf o, b.id = o.id := by
  unfold addOrder
  by_cases h : buf.any (fun b => decide (b.id = o.id)) = true
  · obtain ⟨b, hb, hid⟩ := List.any_eq_true.mp h
    exact ⟨b, by simp [h, hb], of_decide_eq_true hid⟩
  · exact ⟨o, by simp [h], rfl⟩

/-- C8: When the oracle call for a dequeued order fails (transport,
not-registered, decode), the processor's loop iteration leaves the
database state — every order row and every wallet row — exactly as it
was, and the result buffer is `addOrder buf order`, which holds an entry
with the order's identifier. -/
theorem processOrders_oracle_error_buffers_without_state_change
    (s : DBState) (buf : List Order) (order : Order) :
    (processOrdersStep s buf order OracleResult.failure).1 = s ∧
    (processOrdersStep s buf order OracleResult.failure).2 = addOrder buf order ∧
    ∃ b ∈ (processOrdersStep s buf order OracleResult.failure).2, b.id = order.id := by
  refine ⟨rfl, rfl, ?_⟩
  simpa [processOrdersStep] using addOrder_mem_id buf order

/-- C1 (failing-input evaluation): a dequeued order (row present with
status NEW, owner's wallet at 0/0) whose oracle call succeeds with
`{status: REGISTERED, accrual: 50}` — mapped to the non-terminal internal
status NEW — commits a transaction that credits the owner's wallet by 50
and persists a non-null accrual of 50 on the NEW order row, although the
claim allows a credit and a non-null accrual only for PROCESSED. -/
theorem processor_credits_wallet_for_nonprocessed_response :
    processOrdersStep
        ⟨[⟨"79927398713", "u1", Status.NEW, none⟩], [⟨"u1", 0, 0⟩], []⟩
        [] ⟨"79927398713", "u1", Status.NEW, none⟩
        (OracleResult.success ⟨"79927398713", "REGISTERED", 50⟩)
      = (⟨[⟨"79927398713", "u1", Status.NEW, some 50⟩], [⟨"u1", 50, 0⟩], []⟩, []) ∧
    mapAccrualResponseStatus ⟨"79927398713", "REGISTERED", 50⟩ = Status.NEW := by
  constructor
  · decide
  · decide

/-- C3 (failing-input evaluation): a dequeued order whose oracle response
`{status: PROCESSING, accrual: 5}` maps to the non-terminal status
PROCESSING, and whose update transaction commits (accrual 5 passes the
`accrual > 0` check), is NOT placed into the Retry Buffer: starting from
an empty buffer, the buffer is still empty after the commit, so the order
stalls until the next startup recovery. -/
theorem processor_does_not_buffer_committed_nonterminal :
    mapAccrualResponseStatus ⟨"2377225624", "PROCESSING", 5⟩ = Status.PROCESSING ∧
    (processOrdersStep
        ⟨[⟨"2377225624", "u1", Status.NEW, none⟩], [⟨"u1", 0, 0⟩], []⟩
        [] ⟨"2377225624", "u1", Status.NEW, none⟩
        (OracleResult.success ⟨"2377225624", "PROCESSING", 5⟩)).2 = [] ∧
    (processOrdersStep
        ⟨[⟨"2377225624", "u1", Status.NEW, none⟩], [⟨"u1", 0, 0⟩], []⟩
        [] ⟨"2377225624", "u1", Status.NEW, none⟩
        (OracleResult.success ⟨"2377225624", "PROCESSING", 5⟩)).1.orders
      = [⟨"2377225624", "u1", Status.PROCESSING, some 5⟩] := by
  refine ⟨by decide, by decide, by decide⟩

/-- C5: When the post-debit wallet row has a negative balance,
`CreateWithdrawal` returns the `insufficient funds` outcome (402) and the
committed state is exactly the state before the call: no withdrawal row,
wallet rows untouched. -/
theorem createWithdrawal_insufficient_funds_aborts
    (s : DBState) (userUID orderID : String) (amount : ℤ)
    (wallet : Wallet) (wallets' : List Wallet)
    (hdebit : debitRows s.wallets userUID amount = some (wallet, wallets'))
    (hneg : wallet.credits - wallet.debits < 0) :
    WithdrawalServiceImpl.CreateWithdrawal s userUID orderID amount
      = (s, WithdrawalOutcome.insufficientFunds) := by
  unfold WithdrawalServiceImpl.CreateWithdrawal
  rw [hdebit]
  simp [hneg]

/-- Witness for C5: a wallet at credits 50, debits 0; withdrawing 100
debits to (50, 100), the balance check fails, and the call returns the
original state with the 402 outcome. -/
theorem createWithdrawal_insufficient_funds_aborts_witness :
    debitRows [⟨"u1", 50, 0⟩] "u1" 100 = some (⟨"u1", 50, 100⟩, [⟨"u1", 50, 100⟩]) ∧
    (⟨"u1", 50, 100⟩ : Wallet).credits - (⟨"u1", 50, 100⟩ : Wallet).debits < 0 ∧
    WithdrawalServiceImpl.CreateWithdrawal ⟨[], [⟨"u1", 50, 0⟩], []⟩ "u1" "79927398713" 100
      = (⟨[], [⟨"u1", 50, 0⟩], []⟩, WithdrawalOutcome.insufficientFunds) :=
  ⟨by decide, by decide,
    createWithdrawal_insufficient_funds_aborts ⟨[], [⟨"u1", 50, 0⟩], []⟩ "u1" "79927398713"
      100 ⟨"u1", 50, 100⟩ [⟨"u1", 50, 100⟩] (by decide) (by decide)⟩

/-- C4 (failing-input evaluation): with the default configuration
(`AccrualMaxRequestsPerMinute = 60`), `NewAccrualClient` hands 60 — the
per-minute figure divided by 1 — to `ratelimit.New`, whose unit is
requests per second; the limiter therefore admits 3600 requests in the
first minute of continuous demand, far more than the configured 60 per
minute. -/
theorem accrual_rate_limiter_unit_mismatch :
    NewAccrualClient.ratePerSecond defaultAppConfig = 60 ∧
    admissionsInFirstMinute (NewAccrualClient.ratePerSecond defaultAppConfig) = 3600 ∧
    ¬ admissionsInFirstMinute (NewAccrualClient.ratePerSecond defaultAppConfig)
        ≤ defaultAppConfig.accrualMaxRequestsPerMinute := by
  refine ⟨rfl, rfl, by decide⟩

/-- Helper: when the separator occurs nowhere in the scanned list, the
split scan emits a single piece — the accumulator followed by the rest. -/
theorem goSplitAux_of_not_contains (sep : List Char) (s acc : List Char)
    (h : containsSub sep s = false) :
    goSplitAux sep s acc = [acc.reverse ++ s] := by
  induction s generalizing acc with
  | nil => simp [goSplitAux]
  | cons c rest ih =>
    unfold containsSub at h
    rw [Bool.or_eq_false_iff] at h
    obtain ⟨h1, h2⟩ := h
    unfold goSplitAux
    rw [if_neg (by simp [h1]), ih (c :: acc) h2]
    simp

/-- C10: Requests whose Authorization header does not contain the
substring `Bearer ` (a missing header reads as the empty string) make the
middleware's `strings.Split(header, "Bearer ")[1]` index out of bounds —
a runtime panic, not a 401 — and conversely the two 401 branches are
reachable only when the header does contain `Bearer `. -/
theorem authenticate_panics_without_bearer
    (getUserEmail : List Char → Option String) (getByUserEmail : String → Option String)
    (authHeader : List Char) :
    (containsSub bearerSep authHeader = false →
      AuthMiddleware.Authenticate getUserEmail getByUserEmail authHeader
        = AuthOutcome.panic) ∧
    (AuthMiddleware.Authenticate getUserEmail getByUserEmail authHeader
        = AuthOutcome.unauthorizedInvalidToken ∨
      AuthMiddleware.Authenticate getUserEmail getByUserEmail authHeader
        = AuthOutcome.unauthorizedUserNotFound →
      containsSub bearerSep authHeader = true) := by
  have hpanic : containsSub bearerSep authHeader = false →
      AuthMiddleware.Authenticate getUserEmail getByUserEmail authHeader
        = AuthOutcome.panic := by
    intro h
    unfold AuthMiddleware.Authenticate goSplit
    rw [goSplitAux_of_not_contains bearerSep authHeader [] h]
    rfl
  refine ⟨hpanic, ?_⟩
  intro h
  cases hcv : containsSub bearerSep authHeader with
  | true => rfl
  | false =>
    have hp := hpanic hcv
    rcases h with h | h <;> rw [hp] at h <;> exact absurd h (by decide)

/-- Witness for C10: the header `Token abc` does not contain `Bearer `,
and the middleware's parse panics on it. -/
theorem authenticate_panics_without_bearer_witness :
    containsSub bearerSep ("Token abc".toList) = false ∧
    AuthMiddleware.Authenticate (fun _ => none) (fun _ => none) ("Token abc".toList)
      = AuthOutcome.panic :=
  ⟨by decide, (authenticate_panics_without_bearer (fun _ => none) (fun _ => none)
      ("Token abc".toList)).1 (by decide)⟩

/-- C6: On a Luhn-valid identifier, order intake answers 409 without any
state change when the identifier is already owned by another user, 200
without any state change when it is owned by the caller, and otherwise
persists a NEW order, submits it to the work queue, and answers 202. -/
theorem createOrder_admission_trichotomy
    (s : DBState) (queue : List Order) (orderID userUID : String)
    (hluhn : luhnValid orderID = true) :
    (∀ o, s.orders.find? (fun r => decide (r.id = orderID)) = some o →
      o.userUUID ≠ userUID →
      OrdersHandler.CreateOrder s queue orderID userUID = (s, queue, 409)) ∧
    (∀ o, s.orders.find? (fun r => decide (r.id = orderID)) = some o →
      o.userUUID = userUID →
      OrdersHandler.CreateOrder s queue orderID userUID = (s, queue, 200)) ∧
    (s.orders.find? (fun r => decide (r.id = orderID)) = none →
      OrdersHandler.CreateOrder s queue orderID userUID =
        ({ s with orders := s.orders ++ [⟨orderID, userUID, Status.NEW, none⟩] },
          queue ++ [⟨orderID, userUID, Status.NEW, none⟩], 202)) := by
  refine ⟨?_, ?_, ?_⟩
  · intro o hfind hne
    unfold OrdersHandler.CreateOrder OrderServiceImpl.CreateOrder
    rw [if_neg (by simp [hluhn]), hfind]
    simp [hne]
    decide
  · intro o hfind heq
    unfold OrdersHandler.CreateOrder OrderServiceImpl.CreateOrder
    rw [if_neg (by simp [hluhn]), hfind]
    simp [heq]
    decide
  · intro hfind
    unfold OrdersHandler.CreateOrder OrderServiceImpl.CreateOrder
    rw [if_neg (by simp [hluhn]), hfind]

/-- Witness for C6: `79927398713` is Luhn-valid; with the row owned by
`u2`, user `u1` gets 409 and no change; owner `u2` gets 200 and no
change; on an empty table the order is inserted as NEW, enqueued, and
answered 202. -/
theorem createOrder_admission_trichotomy_witness :
    luhnValid "79927398713" = true ∧
    OrdersHandler.CreateOrder ⟨[⟨"79927398713", "u2", Status.NEW, none⟩], [], []⟩ []
        "79927398713" "u1"
      = (⟨[⟨"79927398713", "u2", Status.NEW, none⟩], [], []⟩, [], 409) ∧
    OrdersHandler.CreateOrder ⟨[⟨"79927398713", "u2", Status.NEW, none⟩], [], []⟩ []
        "79927398713" "u2"
      = (⟨[⟨"79927398713", "u2", Status.NEW, none⟩], [], []⟩, [], 200) ∧
    OrdersHandler.CreateOrder ⟨[], [], []⟩ [] "79927398713" "u1"
      = (⟨[⟨"79927398713", "u1", Status.NEW, none⟩], [], []⟩,
          [⟨"79927398713", "u1", Status.NEW, none⟩], 202) :=
  ⟨by decide,
    (createOrder_admission_trichotomy ⟨[⟨"79927398713", "u2", Status.NEW, none⟩], [], []⟩
      [] "79927398713" "u1" (by decide)).1 ⟨"79927398713", "u2", Status.NEW, none⟩
      (by decide) (by decide),
    (createOrder_admission_trichotomy ⟨[⟨"79927398713", "u2", Status.NEW, none⟩], [], []⟩
      [] "79927398713" "u2" (by decide)).2.1 ⟨"79927398713", "u2", Status.NEW, none⟩
      (by decide) (by decide),
    (createOrder_admission_trichotomy ⟨[], [], []⟩ [] "79927398713" "u1"
      (by decide)).2.2 (by decide)⟩

/-- Helper: with the total set to the unprocessed-row count, the paging
loop starting at offset `cnt` publishes exactly the filtered rows from
position `cnt` on. -/
theorem publishUnfinishedLoop_eq_drop (rows : List Order) (cnt : Nat) :
    publishUnfinishedLoop rows (CountUnprocessedOrders rows) cnt
      = (rows.filter isUnprocessed).drop cnt := by
  suffices h : ∀ k cnt, CountUnprocessedOrders rows - cnt ≤ k →
      publishUnfinishedLoop rows (CountUnprocessedOrders rows) cnt
        = (rows.filter isUnprocessed).drop cnt from h _ cnt le_rfl
  intro k
  induction k with
  | zero =>
    intro cnt hk
    rw [publishUnfinishedLoop, if_neg (by omega)]
    have hle : (rows.filter isUnprocessed).length ≤ cnt := by
      unfold CountUnprocessedOrders at hk
      omega
    exact (List.drop_eq_nil_of_le hle).symm
  | succ k ih =>
    intro cnt hk
    by_cases h : cnt < CountUnprocessedOrders rows
    · rw [publishUnfinishedLoop, if_pos h, ih (cnt + 20) (by omega)]
      unfold GetUnprocessedOrders
      exact List.drop_take_append_drop (rows.filter isUnprocessed) cnt 20
    · rw [publishUnfinishedLoop, if_neg h]
      have hle : (rows.filter isUnprocessed).length ≤ cnt := by
        unfold CountUnprocessedOrders at h
        omega
      exact (List.drop_eq_nil_of_le hle).symm

/-- Helper: when the buffer has room for the whole send list, every send
is accepted and the channel ends holding the prior contents followed by
the list. -/
theorem chanSendAll_completed (toSend queue : List Order)
    (h : queue.length + toSend.length ≤ processOrderChanCapacity) :
    chanSendAll queue toSend = RecoveryResult.completed (queue ++ toSend) := by
  induction toSend generalizing queue with
  | nil => simp [chanSendAll]
  | cons o rest ih =>
    unfold chanSendAll
    rw [if_pos (by simp at h; omega)]
    rw [ih (queue ++ [o]) (by simp at h ⊢; omega)]
    simp

set_option maxRecDepth 16000 in
/-- C7 counterexample: on a database holding 101 NEW orders — one more
than the work queue's capacity of 100, with no consumer running during
construction — startup recovery deadlocks on the 101st send: the channel
is stuck holding the first 100 orders, and the NEW order `"100"`, though
present in the database, is never submitted, so recovery does not submit
every unprocessed order for this starting state. -/
theorem processUnfinished_deadlocks_beyond_capacity :
    (⟨"100", "u1", Status.NEW, none⟩ : Order) ∈ manyUnprocessedRows ∧
    ProcessUnfinishedOrders manyUnprocessedRows
      = RecoveryResult.blocked (manyUnprocessedRows.take 100) ∧
    (⟨"100", "u1", Status.NEW, none⟩ : Order) ∉ manyUnprocessedRows.take 100 := by
  refine ⟨by decide, ?_, by decide⟩
  unfold ProcessUnfinishedOrders
  rw [if_pos (by decide)]
  rw [publishUnfinishedLoop_eq_drop manyUnprocessedRows 0, List.drop_zero]
  decide

/-- C7 (amended): provided the starting database state holds at most 100
orders with status NEW or PROCESSING — the work queue's capacity, since
no consumer runs during construction — startup recovery completes
(paging 20 per page until the initial count is covered) and submits
every such order onto the work queue at least once. -/
theorem processUnfinished_publishes_every_unprocessed_within_capacity
    (rows : List Order)
    (hcap : CountUnprocessedOrders rows ≤ processOrderChanCapacity)
    (o : Order) (ho : o ∈ rows)
    (hs : o.status = Status.NEW ∨ o.status = Status.PROCESSING) :
    ∃ queue, ProcessUnfinishedOrders rows = RecoveryResult.completed queue ∧
      o ∈ queue := by
  have hmem : o ∈ rows.filter isUnprocessed := by
    refine List.mem_filter.mpr ⟨ho, ?_⟩
    unfold isUnprocessed
    rcases hs with h | h <;> simp [h]
  unfold ProcessUnfinishedOrders
  rw [if_pos ?nonzero]
  case nonzero =>
    unfold CountUnprocessedOrders
    intro hzero
    rw [List.length_eq_zero] at hzero
    rw [hzero] at hmem
    exact absurd hmem (List.not_mem_nil o)
  rw [publishUnfinishedLoop_eq_drop rows 0, List.drop_zero]
  refine ⟨rows.filter isUnprocessed, ?_, hmem⟩
  have hlen : (rows.filter isUnprocessed).length ≤ processOrderChanCapacity := hcap
  have hc := chanSendAll_completed (rows.filter isUnprocessed) []
    (by simp only [List.length_nil]; omega)
  simpa using hc

/-- Witness for the amended C7: a single NEW order (within capacity) is
submitted by a completing startup recovery. -/
theorem processUnfinished_within_capacity_witness :
    CountUnprocessedOrders [⟨"79927398713", "u1", Status.NEW, none⟩]
        ≤ processOrderChanCapacity ∧
    ∃ queue, ProcessUnfinishedOrders [⟨"79927398713", "u1", Status.NEW, none⟩]
        = RecoveryResult.completed queue ∧
      (⟨"79927398713", "u1", Status.NEW, none⟩ : Order) ∈ queue :=
  ⟨by decide,
    processUnfinished_publishes_every_unprocessed_within_capacity
      [⟨"79927398713", "u1", Status.NEW, none⟩] (by decide)
      ⟨"79927398713", "u1", Status.NEW, none⟩ (by decide) (Or.inl rfl)⟩

/-- Helper: an entry of `addOrder buf o` is a previous entry or `o`. -/
theorem mem_addOrder (buf : List Order) (o x : Order) (hx : x ∈ addOrder buf o) :
    x ∈ buf ∨ x = o := by
  unfold addOrder at hx
  by_cases h : buf.any (fun b => decide (b.id = o.id)) = true
  · rw [if_pos h] at hx
    exact Or.inl hx
  · rw [if_neg h] at hx
    rcases List.mem_append.mp hx with h1 | h1
    · exact Or.inl h1
    · exact Or.inr (List.mem_singleton.mp h1)

/-- Helper: an entry of the wallet-row update map is the updated row or an
original row. -/
theorem mem_walletUpdateMap (rows : List Wallet) (uid : String) (w' x : Wallet)
    (hx : x ∈ rows.map fun r => if r.userUUID = uid then w' else r) :
    x = w' ∨ x ∈ rows := by
  obtain ⟨r, hr, hfx⟩ := List.mem_map.mp hx
  by_cases h : r.userUUID = uid
  · rw [if_pos h] at hfx
    exact Or.inl hfx.symm
  · rw [if_neg h] at hfx
    exact Or.inr (hfx ▸ hr)

/-- Helper: what a successful `creditRows` tells us — the found row, the
returned row, and the shape of the updated table. -/
theorem creditRows_spec (rows : List Wallet) (uid : String) (a : ℤ)
    (w' : Wallet) (rows' : List Wallet)
    (hc : creditRows rows uid a = some (w', rows')) :
    ∃ w0, rows.find? (fun w => decide (w.userUUID = uid)) = some w0 ∧
      w' = { w0 with credits := w0.credits + a } ∧
      rows' = rows.map fun r => if r.userUUID = uid then w' else r := by
  unfold creditRows at hc
  cases hfind : rows.find? (fun w => decide (w.userUUID = uid)) with
  | none =>
    rw [hfind] at hc
    exact absurd hc (by simp)
  | some w0 =>
    simp only [hfind] at hc
    by_cases hok : 0 ≤ w0.credits + a
    · rw [if_pos hok, Option.some_inj] at hc
      injection hc with h1 h2
      refine ⟨w0, rfl, h1.symm, ?_⟩
      rw [h1] at h2
      exact h2.symm
    · rw [if_neg hok] at hc
      exact absurd hc (by simp)

/-- Helper: what a successful `debitRows` tells us. -/
theorem debitRows_spec (rows : List Wallet) (uid : String) (a : ℤ)
    (w' : Wallet) (rows' : List Wallet)
    (hd : debitRows rows uid a = some (w', rows')) :
    ∃ w0, rows.find? (fun w => decide (w.userUUID = uid)) = some w0 ∧
      w' = { w0 with debits := w0.debits + a } ∧
      rows' = rows.map fun r => if r.userUUID = uid then w' else r := by
  unfold debitRows at hd
  cases hfind : rows.find? (fun w => decide (w.userUUID = uid)) with
  | none =>
    rw [hfind] at hd
    exact absurd hd (by simp)
  | some w0 =>
    simp only [hfind] at hd
    by_cases hok : 0 ≤ w0.debits + a
    · rw [if_pos hok, Option.some_inj] at hd
      injection hd with h1 h2
      refine ⟨w0, rfl, h1.symm, ?_⟩
      rw [h1] at h2
      exact h2.symm
    · rw [if_neg hok] at hd
      exact absurd hd (by simp)

/-- Helper: a successful `updateOrderRows` preserves every identifier
present in the table. -/
theorem updateOrderRows_ids (rows rows' : List Order) (o : Order)
    (h : updateOrderRows rows o = some rows') (r : Order) (hr : r ∈ rows) :
    ∃ r' ∈ rows', r'.id = r.id := by
  unfold updateOrderRows at h
  by_cases hcond :
      (rows.any (fun x => decide (x.id = o.id)) && !accrualCheckOk o.accrual) = true
  · rw [if_pos hcond] at h
    exact absurd h (by simp)
  · rw [if_neg hcond, Option.some_inj] at h
    subst h
    refine ⟨if r.id = o.id then { r with status := o.status, accrual := o.accrual } else r,
      List.mem_map_of_mem _ hr, ?_⟩
    by_cases hid : r.id = o.id
    · rw [if_pos hid]
    · rw [if_neg hid]

/-- Helper: when the updated order's row exists, a successful
`updateOrderRows` forces the `accrual > 0` check to have passed. -/
theorem updateOrderRows_check (rows rows' : List Order) (o : Order)
    (h : updateOrderRows rows o = some rows')
    (hrow : ∃ r ∈ rows, r.id = o.id) :
    accrualCheckOk o.accrual = true := by
  unfold updateOrderRows at h
  by_cases hcond :
      (rows.any (fun x => decide (x.id = o.id)) && !accrualCheckOk o.accrual) = true
  · rw [if_pos hcond] at h
    exact absurd h (by simp)
  · have hany : rows.any (fun x => decide (x.id = o.id)) = true := by
      obtain ⟨r, hr, hid⟩ := hrow
      exact List.any_eq_true.mpr ⟨r, hr, decide_eq_true hid⟩
    cases hchk : accrualCheckOk o.accrual with
    | true => rfl
    | false =>
      exfalso
      apply hcond
      rw [hany, hchk]
      rfl

/-- Helper: a committed or rolled-back `updateOrder` preserves
non-negative balances whenever the order's row exists in the table (the
`accrual > 0` check then forces any credited amount to be positive). -/
theorem updateOrder_balances (s : DBState) (buf : List Order) (o : Order)
    (hrow : ∃ r ∈ s.orders, r.id = o.id)
    (hB : BalancesNonneg s) :
    BalancesNonneg (OrderProcessorImpl.updateOrder s buf o).state := by
  unfold OrderProcessorImpl.updateOrder
  cases hupd : updateOrderRows s.orders o with
  | none => exact hB
  | some orders' =>
    cases hcr : creditRows s.wallets o.userUUID (o.accrual.getD 0) with
    | none => exact hB
    | some p =>
      obtain ⟨w', wallets'⟩ := p
      intro w hw
      obtain ⟨w0, hfind, hw', hrows'⟩ := creditRows_spec _ _ _ _ _ hcr
      rcases mem_walletUpdateMap s.wallets o.userUUID w' w (hrows' ▸ hw) with hxw | hxm
      · subst hxw
        have h0 : 0 ≤ w0.credits - w0.debits := hB w0 (List.mem_of_find?_eq_some hfind)
        have hchk := updateOrderRows_check _ _ _ hupd hrow
        rw [hw']
        cases hacc : o.accrual with
        | none =>
          simp only [hacc, Option.getD_none]
          omega
        | some a =>
          rw [hacc] at hchk
          unfold accrualCheckOk at hchk
          have ha : 0 < a := of_decide_eq_true hchk
          simp only [hacc, Option.getD_some]
          omega
      · exact hB w hxm

/-- Helper: one processor iteration preserves non-negative balances when
the dequeued order's row exists. -/
theorem processOrdersStep_balances (s : DBState) (buf : List Order) (order : Order)
    (res : OracleResult)
    (hrow : ∃ r ∈ s.orders, r.id = order.id)
    (hB : BalancesNonneg s) :
    BalancesNonneg (processOrdersStep s buf order res).1 := by
  cases res with
  | failure => exact hB
  | success resp =>
    exact updateOrder_balances s buf
      { order with accrual := some resp.accrual, status := mapAccrualResponseStatus resp }
      hrow hB

/-- Helper: whatever a processor iteration leaves in the retry buffer was
already buffered or carries the dequeued order's identifier. -/
theorem processOrdersStep_buffer (s : DBState) (buf : List Order) (order : Order)
    (res : OracleResult) (x : Order)
    (hx : x ∈ (processOrdersStep s buf order res).2) :
    x ∈ buf ∨ x.id = order.id := by
  cases res with
  | failure =>
    rcases mem_addOrder buf order x hx with h | h
    · exact Or.inl h
    · exact Or.inr (by rw [h])
  | success resp =>
    simp only [processOrdersStep, OrderProcessorImpl.updateOrder] at hx
    cases hupd : updateOrderRows s.orders
        ⟨order.id, order.userUUID, mapAccrualResponseStatus resp, some resp.accrual⟩ with
    | none =>
      simp only [hupd] at hx
      rcases mem_addOrder _ _ x hx with h | h
      · exact Or.inl h
      · exact Or.inr (by rw [h])
    | some orders' =>
      simp only [hupd] at hx
      cases hcr : creditRows s.wallets order.userUUID ((some resp.accrual).getD 0) with
      | none =>
        simp only [hcr] at hx
        rcases mem_addOrder _ _ x hx with h | h
        · exact Or.inl h
        · exact Or.inr (by rw [h])
      | some p =>
        obtain ⟨w', wallets'⟩ := p
        simp only [hcr] at hx
        exact Or.inl hx

/-- Helper: a processor iteration preserves every order identifier in the
table. -/
theorem processOrdersStep_orders_ids (s : DBState) (buf : List Order) (order : Order)
    (res : OracleResult) (r : Order) (hr : r ∈ s.orders) :
    ∃ r' ∈ (processOrdersStep s buf order res).1.orders, r'.id = r.id := by
  cases res with
  | failure => exact ⟨r, hr, rfl⟩
  | success resp =>
    simp only [processOrdersStep, OrderProcessorImpl.updateOrder]
    cases hupd : updateOrderRows s.orders
        ⟨order.id, order.userUUID, mapAccrualResponseStatus resp, some resp.accrual⟩ with
    | none =>
      simp only [hupd]
      exact ⟨r, hr, rfl⟩
    | some orders' =>
      simp only [hupd]
      cases hcr : creditRows s.wallets order.userUUID ((some resp.accrual).getD 0) with
      | none =>
        simp only [hcr]
        exact ⟨r, hr, rfl⟩
      | some p =>
        obtain ⟨w', wallets'⟩ := p
        simp only [hcr]
        exact updateOrderRows_ids _ _ _ hupd r hr

/-- Helper: `CreateWithdrawal` never touches the orders table. -/
theorem createWithdrawal_orders_eq (s : DBState) (uid oid : String) (a : ℤ) :
    (WithdrawalServiceImpl.CreateWithdrawal s uid oid a).1.orders = s.orders := by
  unfold WithdrawalServiceImpl.CreateWithdrawal
  cases hd : debitRows s.wallets uid a with
  | none => rfl
  | some p =>
    obtain ⟨w', wallets'⟩ := p
    simp only []
    by_cases hneg : w'.credits - w'.debits < 0
    · rw [if_pos hneg]
    · rw [if_neg hneg]
      cases hi : insertWithdrawalRow s.withdrawals ⟨uid, oid, a⟩ with
      | none => rfl
      | some wds' => rfl

/-- Helper: `CreateWithdrawal` preserves non-negative balances: either it
leaves the state untouched, or it commits a debit whose post-debit
balance passed the non-negativity guard. -/
theorem createWithdrawal_balances (s : DBState) (uid oid : String) (a : ℤ)
    (hB : BalancesNonneg s) :
    BalancesNonneg (WithdrawalServiceImpl.CreateWithdrawal s uid oid a).1 := by
  unfold WithdrawalServiceImpl.CreateWithdrawal
  cases hd : debitRows s.wallets uid a with
  | none => exact hB
  | some p =>
    obtain ⟨w', wallets'⟩ := p
    simp only []
    by_cases hneg : w'.credits - w'.debits < 0
    · rw [if_pos hneg]
      exact hB
    · rw [if_neg hneg]
      cases hi : insertWithdrawalRow s.withdrawals ⟨uid, oid, a⟩ with
      | none => exact hB
      | some wds' =>
        intro w hw
        obtain ⟨w0, hfind, hw', hrows'⟩ := debitRows_spec _ _ _ _ _ hd
        rcases mem_walletUpdateMap s.wallets uid w' w (hrows' ▸ hw) with hxw | hxm
        · subst hxw
          omega
        · exact hB w hxm

/-- Helper: every core operation preserves the system invariant. -/
theorem sysStep_inv (s : SysState) (op : SysOp) (h : SysInv s) :
    SysInv (sysStep s op) := by
  obtain ⟨hB, hQ⟩ := h
  cases op with
  | register uid =>
    refine ⟨?_, ?_⟩
    · simp only [sysStep, createWalletOp]
      by_cases hex : s.db.wallets.any (fun w => decide (w.userUUID = uid)) = true
      · rw [if_pos hex]
        exact hB
      · rw [if_neg hex]
        intro w hw
        rcases List.mem_append.mp hw with h1 | h1
        · exact hB w h1
        · rw [List.mem_singleton.mp h1]
          simp
    · simp only [sysStep, createWalletOp]
      by_cases hex : s.db.wallets.any (fun w => decide (w.userUUID = uid)) = true
      · rw [if_pos hex]
        exact hQ
      · rw [if_neg hex]
        exact hQ
  | intake oid uid =>
    simp only [sysStep, OrderServiceImpl.CreateOrder]
    cases hfind : s.db.orders.find? (fun o => decide (o.id = oid)) with
    | some o0 =>
      simp only []
      by_cases hne : o0.userUUID ≠ uid
      · rw [if_pos hne]
        exact ⟨hB, hQ⟩
      · rw [if_neg hne]
        exact ⟨hB, hQ⟩
    | none =>
      simp only []
      refine ⟨hB, ?_⟩
      intro o ho
      rcases List.mem_append.mp ho with hqm | hbm
      · rcases List.mem_append.mp hqm with hq1 | hq2
        · obtain ⟨r, hr, hid⟩ := hQ o (List.mem_append.mpr (Or.inl hq1))
          exact ⟨r, List.mem_append.mpr (Or.inl hr), hid⟩
        · rw [List.mem_singleton.mp hq2]
          exact ⟨⟨oid, uid, Status.NEW, none⟩,
            List.mem_append.mpr (Or.inr (List.mem_singleton.mpr rfl)), rfl⟩
      · obtain ⟨r, hr, hid⟩ := hQ o (List.mem_append.mpr (Or.inr hbm))
        exact ⟨r, List.mem_append.mpr (Or.inl hr), hid⟩
  | processHead res =>
    simp only [sysStep]
    cases hq : s.queue with
    | nil => exact ⟨hB, hQ⟩
    | cons order rest =>
      simp only []
      have hrow : ∃ r ∈ s.db.orders, r.id = order.id := by
        refine hQ order (List.mem_append.mpr (Or.inl ?_))
        rw [hq]
        exact List.mem_cons_self order rest
      refine ⟨processOrdersStep_balances _ _ _ _ hrow hB, ?_⟩
      intro o ho
      rcases List.mem_append.mp ho with hq1 | hb1
      · have hold : o ∈ s.queue ++ s.buffer := by
          rw [hq]
          exact List.mem_append.mpr (Or.inl (List.mem_cons_of_mem order hq1))
        obtain ⟨r, hr, hid⟩ := hQ o hold
        obtain ⟨r', hr', hid'⟩ := processOrdersStep_orders_ids s.db s.buffer order res r hr
        exact ⟨r', hr', by rw [hid', hid]⟩
      · rcases processOrdersStep_buffer s.db s.buffer order res o hb1 with hob | hoid
        · obtain ⟨r, hr, hid⟩ := hQ o (List.mem_append.mpr (Or.inr hob))
          obtain ⟨r', hr', hid'⟩ := processOrdersStep_orders_ids s.db s.buffer order res r hr
          exact ⟨r', hr', by rw [hid', hid]⟩
        · obtain ⟨r, hr, hid⟩ := hrow
          obtain ⟨r', hr', hid'⟩ := processOrdersStep_orders_ids s.db s.buffer order res r hr
          exact ⟨r', hr', by rw [hid', hid, hoid]⟩
  | expire i =>
    simp only [sysStep]
    cases hg : s.buffer.get? i with
    | none => exact ⟨hB, hQ⟩
    | some o0 =>
      simp only []
      refine ⟨hB, ?_⟩
      intro o ho
      rcases List.mem_append.mp ho with hq1 | hb1
      · rcases List.mem_append.mp hq1 with hq2 | hq3
        · exact hQ o (List.mem_append.mpr (Or.inl hq2))
        · rw [List.mem_singleton.mp hq3]
          exact hQ o0 (List.mem_append.mpr (Or.inr (List.get?_mem hg)))
      · exact hQ o (List.mem_append.mpr (Or.inr (List.eraseIdx_subset _ _ hb1)))
  | withdraw uid oid a =>
    simp only [sysStep]
    refine ⟨createWithdrawal_balances _ _ _ _ hB, ?_⟩
    intro o ho
    rw [createWithdrawal_orders_eq]
    exact hQ o ho

/-- Helper: the invariant holds in every reachable state. -/
theorem runSys_inv (ops : List SysOp) : SysInv (runSys ops) := by
  have hinit : SysInv initSysState := by
    refine ⟨?_, ?_⟩
    · intro w hw
      exact absurd hw (List.not_mem_nil w)
    · intro o ho
      exact absurd ho (List.not_mem_nil o)
  suffices h : ∀ (l : List SysOp) (s : SysState), SysInv s → SysInv (l.foldl sysStep s)
    from h ops initSysState hinit
  intro l
  induction l with
  | nil => exact fun s hs => hs
  | cons op rest ih => exact fun s hs => ih (sysStep s op) (sysStep_inv s op hs)

/-- C2: In every committed state reachable by any sequence of the core's
operations — wallet creation, order intake, processor steps with
arbitrary oracle outcomes (any accrual amount), retry-buffer expiry, and
withdrawals of any amount — every wallet row satisfies
`credits − debits ≥ 0`. -/
theorem committed_balance_nonneg (ops : List SysOp) (w : Wallet)
    (hw : w ∈ (runSys ops).db.wallets) : 0 ≤ w.credits - w.debits :=
  (runSys_inv ops).1 w hw

/-- Witness for C2: a run that registers a user, takes an order through a
PROCESSED accrual of 500, and withdraws 100, ending with the wallet at
credits 500, debits 100 — whose balance the theorem bounds. -/
theorem committed_balance_nonneg_witness :
    (⟨"u1", 500, 100⟩ : Wallet) ∈ (runSys [SysOp.register "u1",
        SysOp.intake "79927398713" "u1",
        SysOp.processHead (OracleResult.success ⟨"79927398713", "PROCESSED", 500⟩),
        SysOp.withdraw "u1" "2377225624" 100]).db.wallets ∧
    0 ≤ (⟨"u1", 500, 100⟩ : Wallet).credits - (⟨"u1", 500, 100⟩ : Wallet).debits :=
  ⟨by decide, committed_balance_nonneg [SysOp.register "u1",
      SysOp.intake "79927398713" "u1",
      SysOp.processHead (OracleResult.success ⟨"79927398713", "PROCESSED", 500⟩),
      SysOp.withdraw "u1" "2377225624" 100] ⟨"u1", 500, 100⟩ (by decide)⟩

end Gofermart
